import Mathlib

/-!
Verification of the TBPTT echo-task training script (rnnTF5-1.py).

We embed the script's data model and operations:
* the hyperparameter constants (lines 6-14 of the source),
* the sequence generator `generateData` (np.roll, zero-fill, reshape),
* the batch slicer (column windows of width `truncated_backprop_length`),
* the stacked LSTM forward pass, classifier head and loss reducer,
* the epoch/chunk training loop with its carried recurrent state.

Machine integers are modelled as Nat (Python ints are unbounded here);
floating-point values are modelled as real numbers.
-/

namespace RnnTF5

/-! ### Hyperparameter constants, source lines 6-14 -/

def num_epochs : ℕ := 100

def total_series_length : ℕ := 50000

def truncated_backprop_length : ℕ := 15

def state_size : ℕ := 4

def num_classes : ℕ := 2

def echo_step : ℕ := 3

def batch_size : ℕ := 5

/-- Source line 13: `num_batches = total_series_length//batch_size//truncated_backprop_length`.
Python `//` is floor division, which is Nat division. -/
def num_batches : ℕ := total_series_length / batch_size / truncated_backprop_length

def num_layers : ℕ := 3

/-! ### Sequence generator, source lines 16-24 -/

/-- Model of `np.roll(x, k)`: circularly shift the sequence right by `k`,
so the output at index `i` is the input at index `(i - k) mod n`.
Equivalently, the last `k mod n` elements move to the front. -/
def roll (x : List ℕ) (k : ℕ) : List ℕ :=
  x.drop (x.length - k % x.length) ++ x.take (x.length - k % x.length)

/-- Model of `y[0:k] = 0` (source line 19): overwrite the first `k` entries with 0. -/
def zeroFill (k : ℕ) (y : List ℕ) : List ℕ :=
  (y.take k).map (fun _ => 0) ++ y.drop k

/-- The flat echo sequence: source lines 18-19, `y = np.roll(x, echo_step); y[0:echo_step] = 0`. -/
def echoOf (x : List ℕ) : List ℕ :=
  zeroFill echo_step (roll x echo_step)

/-- Split a list into consecutive blocks of `n` elements (the last block may be
shorter when `n` does not divide the length). This is the row decomposition that
a row-major reshape to `(rows, n)` produces. -/
def chunksOf (n : ℕ) (l : List ℕ) : List (List ℕ) :=
  if _h : n = 0 ∨ l = [] then [] else l.take n :: chunksOf n (l.drop n)
termination_by l.length
decreasing_by
  push_neg at _h
  simp only [List.length_drop]
  have : 0 < l.length := List.length_pos.mpr _h.2
  omega

/-- Model of `x.reshape((batch_size, -1))` on its success path (source lines 21-22):
row-major reshape into `batch_size` rows, the first index changing slowest. -/
def reshapeRows (x : List ℕ) : List (List ℕ) :=
  chunksOf (x.length / batch_size) x

/-- Model of `np.reshape((rows, -1))` including its failure behaviour: numpy
raises a ValueError when `rows` does not divide the flat length, so the result
is `none` exactly in that case. -/
def npReshapeRows (x : List ℕ) (rows : ℕ) : Option (List (List ℕ)) :=
  if rows ∣ x.length ∧ rows ≠ 0 then some (chunksOf (x.length / rows) x) else none

/-- Source lines 16-24, `generateData`: the random draw
`np.random.choice(2, total_series_length)` is modelled by the parameter `x`;
the function returns the reshaped input grid and echo grid. -/
def generateData (x : List ℕ) : List (List ℕ) × List (List ℕ) :=
  (reshapeRows x, reshapeRows (echoOf x))

/-- Total 2-D grid indexing: entry of row `b`, column `j`, defaulting to 0 out of range. -/
def gridGet (g : List (List ℕ)) (b j : ℕ) : ℕ :=
  (g.getD b []).getD j 0

/-! ### Batch slicer, source lines 107-112 -/

/-- Source line 108: `start_idx = batch_idx * truncated_backprop_length`. -/
def start_idx (k : ℕ) : ℕ := k * truncated_backprop_length

/-- Source line 109: `end_idx = start_idx + truncated_backprop_length`. -/
def end_idx (k : ℕ) : ℕ := start_idx k + truncated_backprop_length

/-- Column `j` lies in the window consumed by chunk `k`
(the slice `x[:, start_idx:end_idx]`, source lines 111-112). -/
def inChunkCols (k j : ℕ) : Prop := start_idx k ≤ j ∧ j < end_idx k

instance (k j : ℕ) : Decidable (inChunkCols k j) := by
  unfold inChunkCols; infer_instance

/-- Model of `g[:, k*W : k*W + W]`: every row restricted to chunk `k`'s columns. -/
def sliceChunk (g : List (List ℕ)) (k : ℕ) : List (List ℕ) :=
  g.map (fun row => (row.drop (start_idx k)).take truncated_backprop_length)

/-! ### Recurrent cell stack, source lines 29-50

Floating-point tensors are modelled over the real numbers; a `[batch, d]` tensor
is a family of per-row vectors `Fin d → ℝ`, and the batch rows are processed
independently (as the per-row dataflow of the graph does). -/

/-- Logistic sigmoid, as used by the gates of `tf.contrib.rnn.LSTMCell`. -/
noncomputable def sigmoid (z : ℝ) : ℝ := 1 / (1 + Real.exp (-z))

/-- Trainable parameters of one `tf.contrib.rnn.LSTMCell` with input width `d`:
a kernel of shape `[d + state_size, 4 * state_size]` and a bias of shape
`[4 * state_size]`, the four gate blocks stored in the order i, j, f, o. -/
structure LSTMParams (d : ℕ) where
  kernel : Fin (d + state_size) → Fin (4 * state_size) → ℝ
  bias : Fin (4 * state_size) → ℝ

/-- Concatenation `[inputs, h]` along the feature axis, as the cell computes
`matmul(concat([inputs, h], 1), kernel)`. -/
noncomputable def concatVec {a b : ℕ} (u : Fin a → ℝ) (v : Fin b → ℝ) : Fin (a + b) → ℝ :=
  fun k => if h : k.val < a then u ⟨k.val, h⟩ else v ⟨k.val - a, by omega⟩

/-- One timestep of a single LSTM cell (default `tf.contrib.rnn.LSTMCell`:
no peepholes, `forget_bias = 1`). Given the input `x` and the carried state
`(c, h)`, it returns the new `(c, h)`; the emitted output is the new `h`.
`i, j, f, o` are the input gate, candidate value, forget gate and output gate. -/
noncomputable def lstmStep {d : ℕ} (p : LSTMParams d) (x : Fin d → ℝ)
    (c h : Fin state_size → ℝ) : (Fin state_size → ℝ) × (Fin state_size → ℝ) :=
  let z : Fin (4 * state_size) → ℝ :=
    fun g => (∑ k, concatVec x h k * p.kernel k g) + p.bias g
  let i := fun s : Fin state_size => z ⟨s.val, by have := s.isLt; omega⟩
  let j := fun s : Fin state_size => z ⟨state_size + s.val, by have := s.isLt; omega⟩
  let f := fun s : Fin state_size => z ⟨2 * state_size + s.val, by have := s.isLt; omega⟩
  let o := fun s : Fin state_size => z ⟨3 * state_size + s.val, by have := s.isLt; omega⟩
  let cNew := fun s => c s * sigmoid (f s + 1) + sigmoid (i s) * Real.tanh (j s)
  let hNew := fun s => Real.tanh (cNew s) * sigmoid (o s)
  (cNew, hNew)

/-- Parameters of the `MultiRNNCell` of source lines 48-49: three stacked LSTM
cells; the bottom cell consumes the width-1 input feature
(`tf.expand_dims(batchX_placeholder, -1)`, line 50), the upper cells consume the
`state_size`-wide hidden output of the layer below. -/
structure StackParams where
  p0 : LSTMParams 1
  p1 : LSTMParams state_size
  p2 : LSTMParams state_size

/-- Recurrent state of the stack for one batch row: for each layer an
`LSTMStateTuple` `(c, h)` of cell value and hidden value. -/
def StackState : Type := Fin num_layers → (Fin state_size → ℝ) × (Fin state_size → ℝ)

/-- One timestep of the `MultiRNNCell`: layer `l`'s hidden output feeds layer
`l+1` at the same timestep, each layer updates its own `(c, h)`, and the cell's
emitted output is the top layer's new hidden value. -/
noncomputable def multiStep (P : StackParams) (x : ℝ) (st : StackState) :
    StackState × (Fin state_size → ℝ) :=
  let r0 := lstmStep P.p0 (fun _ => x) (st ⟨0, by decide⟩).1 (st ⟨0, by decide⟩).2
  let r1 := lstmStep P.p1 r0.2 (st ⟨1, by decide⟩).1 (st ⟨1, by decide⟩).2
  let r2 := lstmStep P.p2 r1.2 (st ⟨2, by decide⟩).1 (st ⟨2, by decide⟩).2
  (fun l => if l.val = 0 then r0 else if l.val = 1 then r1 else r2, r2.2)

/-- Model of `tf.nn.dynamic_rnn` (source line 50) on one batch row: process the
timesteps in order from the carried-in state, collecting the per-timestep
outputs and returning the carried-out state. -/
noncomputable def runChunk (P : StackParams) :
    StackState → List ℝ → List (Fin state_size → ℝ) × StackState
  | st, [] => ([], st)
  | st, x :: xs =>
    let r := multiStep P x st
    let rest := runChunk P r.1 xs
    (r.2 :: rest.1, rest.2)

/-- State after feeding a list of inputs one timestep at a time. -/
noncomputable def stApply (P : StackParams) (st : StackState) (xs : List ℝ) : StackState :=
  xs.foldl (fun s v => (multiStep P v s).1) st

/-- Per-timestep outputs of the stack, source lines 50 and 56
(`states_series` after `tf.unstack(states_series, axis=1)`), for one batch row. -/
noncomputable def states_series (P : StackParams) (st : StackState) (xs : List ℝ) :
    List (Fin state_size → ℝ) :=
  (runChunk P st xs).1

/-! ### Classifier head and loss reducer, source lines 36-37 and 56-66 -/

/-- The affine map of the classifier head, source line 60:
`tf.matmul(state, W2) + b2` on one row's hidden vector. -/
noncomputable def logitsOf (W2 : Fin state_size → Fin num_classes → ℝ)
    (b2 : Fin num_classes → ℝ) (h : Fin state_size → ℝ) : Fin num_classes → ℝ :=
  fun c => (∑ s, h s * W2 s c) + b2 c

/-- Softmax normalization, source line 61 (`tf.nn.softmax`). -/
noncomputable def softmax (v : Fin num_classes → ℝ) : Fin num_classes → ℝ :=
  fun c => Real.exp (v c) / ∑ q, Real.exp (v q)

/-- Per-timestep logits list, source line 60: the same `W2` and `b2` are used
at every position of the list. -/
noncomputable def logits_series (W2 : Fin state_size → Fin num_classes → ℝ)
    (b2 : Fin num_classes → ℝ) (hs : List (Fin state_size → ℝ)) :
    List (Fin num_classes → ℝ) :=
  hs.map (logitsOf W2 b2)

/-- Per-timestep prediction list, source line 61. -/
noncomputable def predictions_series (W2 : Fin state_size → Fin num_classes → ℝ)
    (b2 : Fin num_classes → ℝ) (hs : List (Fin state_size → ℝ)) :
    List (Fin num_classes → ℝ) :=
  (logits_series W2 b2 hs).map softmax

/-- Model of `tf.nn.sparse_softmax_cross_entropy_with_logits`:
`log (sum of exp of the scores) - score of the true class`. -/
noncomputable def sparseSoftmaxCrossEntropy (logits : Fin num_classes → ℝ)
    (label : Fin num_classes) : ℝ :=
  Real.log (∑ c, Real.exp (logits c)) - logits label

/-- Model of `tf.reduce_mean` of a tensor flattened to a list:
the sum of all entries divided by their count. -/
noncomputable def reduceMean (l : List ℝ) : ℝ := l.sum / l.length

/-- Source lines 65-66: the per-timestep loss vectors (one cross-entropy value per
timestep and batch row, computed from that row's hidden output `S t b` and the
true label) stacked into a `[chunk_length, batch_size]` tensor and reduced by
`tf.reduce_mean` to one scalar. -/
noncomputable def total_loss (W2 : Fin state_size → Fin num_classes → ℝ)
    (b2 : Fin num_classes → ℝ)
    (S : Fin truncated_backprop_length → Fin batch_size → Fin state_size → ℝ)
    (labels : Fin truncated_backprop_length → Fin batch_size → Fin num_classes) : ℝ :=
  reduceMean (List.ofFn (fun t => List.ofFn (fun b =>
    sparseSoftmaxCrossEntropy (logitsOf W2 b2 (S t b)) (labels t b)))).flatten

/-! ### Training loop, source lines 94-125 -/

/-- Full recurrent state carried between chunks: one `StackState` per batch row.
This reorganizes the indices of the numpy array `[num_layers, 2, batch_size,
state_size]` as row-then-layer; the components are the same. -/
def BatchState : Type := Fin batch_size → StackState

/-- Model of `np.zeros((num_layers, 2, batch_size, state_size))`, source line 103. -/
def zeroBatchState : BatchState :=
  fun _ _ => (fun _ => 0, fun _ => 0)

/-- All trainable parameters: the cell stack's kernels and biases and the
classifier's `W2` and `b2` (source lines 36-37 and 48-49). The optimizer mutates
these between chunks; the loop model below takes the per-chunk parameter values
as an arbitrary function of the chunk index. -/
structure TrainParams where
  stack : StackParams
  W2 : Fin state_size → Fin num_classes → ℝ
  b2 : Fin num_classes → ℝ

/-- Label entry converted to a class index. The generated grids are binary, so
on the actual data this is exact; `tf.int32` labels outside `[0, num_classes)`
would be a precondition violation of the cross-entropy op. -/
def labelFin (v : ℕ) : Fin num_classes :=
  if v = 0 then ⟨0, by decide⟩ else ⟨1, by decide⟩

/-- Input timeseries of one batch row of a chunk, cast to floats
(`batchX_placeholder` is `tf.float32`, source line 26). -/
def rowInputs (bx : List (List ℕ)) (b : Fin batch_size) : List ℝ :=
  (bx.getD b.val []).map (fun v => (v : ℝ))

/-- Everything one `sess.run` of source lines 114-120 returns to the loop:
the scalar loss, the per-timestep predictions, and the carried-out state. -/
structure ChunkResult where
  loss : ℝ
  preds : ℕ → Fin batch_size → Fin num_classes → ℝ
  outState : BatchState

/-- One chunk's forward pass, source lines 114-120: run the stack on every batch
row from the fed-in state, apply the classifier head per timestep, reduce the
cross-entropy losses to one scalar, and return the stack's outgoing state. -/
noncomputable def runChunkTF (prm : TrainParams) (bx byy : List (List ℕ))
    (st : BatchState) : ChunkResult where
  loss := total_loss prm.W2 prm.b2
    (fun t b => (states_series prm.stack (st b) (rowInputs bx b)).getD t.val (fun _ => 0))
    (fun t b => labelFin ((byy.getD b.val []).getD t.val 0))
  preds := fun t b =>
    softmax (logitsOf prm.W2 prm.b2
      ((states_series prm.stack (st b) (rowInputs bx b)).getD t (fun _ => 0)))
  outState := fun b => (runChunk prm.stack (st b) (rowInputs bx b)).2

/-- Argument tuple of one call of `plot` (source line 125): the loss history so
far, the chunk's per-timestep predictions, and the chunk's input and echo grids. -/
structure PlotEvent where
  step : ℕ
  lossHistory : List ℝ
  preds : ℕ → Fin batch_size → Fin num_classes → ℝ
  batchX : List (List ℕ)
  batchY : List (List ℕ)

/-- The chunk loop of one epoch, source lines 107-125, after `k` chunks: the
accumulated loss list, the carried recurrent state (starting from the all-zero
state of line 103), and the list of visualizer calls made so far. `prm k` is the
parameter values the optimizer has produced by the start of chunk `k`. -/
noncomputable def epochLoop (prm : ℕ → TrainParams) (gx gy : List (List ℕ))
    (ll0 : List ℝ) : ℕ → List ℝ × BatchState × List PlotEvent
  | 0 => (ll0, zeroBatchState, [])
  | k + 1 =>
    let s := epochLoop prm gx gy ll0 k
    let r := runChunkTF (prm k) (sliceChunk gx k) (sliceChunk gy k) s.2.1
    (s.1 ++ [r.loss], r.outState,
      s.2.2 ++ if k % 100 = 0
        then [⟨k, s.1 ++ [r.loss], r.preds, sliceChunk gx k, sliceChunk gy k⟩] else [])

/-- The loss list accumulated by the epoch loop across whole epochs, source
lines 99-125: each epoch regenerates the data (`draws e` is the epoch's random
draw) and runs all `num_batches` chunks; the loss list is the only loop variable
carried from one epoch into the next. -/
noncomputable def fullRunLossList (prm : ℕ → ℕ → TrainParams) (draws : ℕ → List ℕ) :
    ℕ → List ℝ
  | 0 => []
  | e + 1 =>
    (epochLoop (prm e) (generateData (draws e)).1 (generateData (draws e)).2
      (fullRunLossList prm draws e) num_batches).1

/-- The recurrent state the loop feeds into chunk `k` of epoch `e` of the full run. -/
noncomputable def stateFedAt (prm : ℕ → ℕ → TrainParams) (draws : ℕ → List ℕ)
    (e k : ℕ) : BatchState :=
  (epochLoop (prm e) (generateData (draws e)).1 (generateData (draws e)).2
    (fullRunLossList prm draws e) k).2.1

/-- All-zero cell parameters, used to instantiate theorems at a concrete point. -/
def zeroLSTMParams (d : ℕ) : LSTMParams d where
  kernel := fun _ _ => 0
  bias := fun _ => 0

/-- All-zero stack parameters. -/
def zeroStackParams : StackParams where
  p0 := zeroLSTMParams 1
  p1 := zeroLSTMParams state_size
  p2 := zeroLSTMParams state_size

/-- All-zero per-row state. -/
def zeroStackState : StackState := fun _ => (fun _ => 0, fun _ => 0)

/-! ### Basic lemmas about `chunksOf` -/

lemma chunksOf_nil (n : ℕ) : chunksOf n [] = [] := by
  rw [chunksOf]; simp

lemma chunksOf_eq_cons (n : ℕ) (l : List ℕ) (hn : n ≠ 0) (hl : l ≠ []) :
    chunksOf n l = l.take n :: chunksOf n (l.drop n) := by
  rw [chunksOf, dif_neg]
  push_neg
  exact ⟨hn, hl⟩

lemma flatten_chunksOf (n : ℕ) (hn : n ≠ 0) (l : List ℕ) : (chunksOf n l).flatten = l := by
  by_cases hl : l = []
  · subst hl; rw [chunksOf_nil]; rfl
  · rw [chunksOf_eq_cons n l hn hl, List.flatten_cons, flatten_chunksOf n hn (l.drop n),
      List.take_append_drop]
termination_by l.length
decreasing_by
  simp only [List.length_drop]
  have : 0 < l.length := List.length_pos.mpr hl
  omega

lemma length_chunksOf (n : ℕ) (l : List ℕ) (hn : n ≠ 0) (h : n ∣ l.length) :
    (chunksOf n l).length = l.length / n := by
  by_cases hl : l = []
  · subst hl; rw [chunksOf_nil]; simp
  · obtain ⟨c, hc⟩ := h
    match c, hc with
    | 0, hc =>
      exfalso; apply hl; apply List.length_eq_zero.mp
      rw [hc, Nat.mul_zero]
    | c + 1, hc =>
      have hexp : n * (c + 1) = n * c + n := by ring
      have hdl : (l.drop n).length = n * c := by
        simp only [List.length_drop]; omega
      have hdvd : n ∣ (l.drop n).length := ⟨c, hdl⟩
      rw [chunksOf_eq_cons n l hn hl, List.length_cons,
        length_chunksOf n (l.drop n) hn hdvd, hdl, hc,
        Nat.mul_div_cancel_left _ (Nat.pos_of_ne_zero hn),
        Nat.mul_div_cancel_left _ (Nat.pos_of_ne_zero hn)]
termination_by l.length
decreasing_by
  simp only [List.length_drop]
  have : 0 < l.length := List.length_pos.mpr hl
  omega

lemma length_mem_chunksOf (n : ℕ) (l : List ℕ) (hn : n ≠ 0) (h : n ∣ l.length) :
    ∀ r ∈ chunksOf n l, r.length = n := by
  by_cases hl : l = []
  · subst hl; rw [chunksOf_nil]; intro r hr; simp at hr
  · obtain ⟨c, hc⟩ := h
    match c, hc with
    | 0, hc =>
      exfalso; apply hl; apply List.length_eq_zero.mp
      rw [hc, Nat.mul_zero]
    | c + 1, hc =>
      have hexp : n * (c + 1) = n * c + n := by ring
      have hln : n ≤ l.length := by omega
      have hdl : (l.drop n).length = n * c := by
        simp only [List.length_drop]; omega
      intro r hr
      rw [chunksOf_eq_cons n l hn hl] at hr
      rcases List.mem_cons.mp hr with h0 | h0
      · subst h0; simp only [List.length_take]; omega
      · exact length_mem_chunksOf n (l.drop n) hn ⟨c, hdl⟩ r h0
termination_by l.length
decreasing_by
  simp only [List.length_drop]
  have : 0 < l.length := List.length_pos.mpr hl
  omega

lemma getD_chunksOf (n : ℕ) (l : List ℕ) (b j : ℕ) (hj : j < n) (h : b * n + j < l.length) :
    ((chunksOf n l).getD b []).getD j 0 = l.getD (b * n + j) 0 := by
  induction b generalizing l with
  | zero =>
    have hl : l ≠ [] := by
      intro e; subst e; simp at h
    have hn : n ≠ 0 := by omega
    rw [chunksOf_eq_cons n l hn hl]
    simp only [List.getD_cons_zero, Nat.zero_mul, Nat.zero_add]
    rw [List.getD_eq_getElem?_getD, List.getD_eq_getElem?_getD,
      List.getElem?_take_of_lt hj]
  | succ b ih =>
    have hl : l ≠ [] := by
      intro e; subst e; simp at h
    have hn : n ≠ 0 := by omega
    rw [chunksOf_eq_cons n l hn hl]
    simp only [List.getD_cons_succ]
    have hfit : b * n + j < (l.drop n).length := by
      simp only [List.length_drop]
      have : (b + 1) * n + j = n + (b * n + j) := by ring
      omega
    rw [ih (l.drop n) hfit, List.getD_eq_getElem?_getD, List.getD_eq_getElem?_getD,
      List.getElem?_drop]
    congr 1
    ring

/-! ### Lemmas about the generated echo sequence -/

lemma length_roll (x : List ℕ) (k : ℕ) : (roll x k).length = x.length := by
  simp only [roll, List.length_append, List.length_drop, List.length_take]
  have : k % x.length ≤ x.length ∨ x.length = 0 := by
    rcases Nat.eq_zero_or_pos x.length with h | h
    · right; exact h
    · left; exact le_of_lt (Nat.mod_lt _ h)
  omega

lemma length_zeroFill (k : ℕ) (y : List ℕ) : (zeroFill k y).length = y.length := by
  simp only [zeroFill, List.length_append, List.length_map, List.length_take,
    List.length_drop]
  omega

lemma length_echoOf (x : List ℕ) : (echoOf x).length = x.length := by
  rw [echoOf, length_zeroFill, length_roll]

lemma getD_map_zero (l : List ℕ) (i : ℕ) : (l.map (fun _ => (0 : ℕ))).getD i 0 = 0 := by
  induction l generalizing i with
  | nil => simp
  | cons a l ih =>
    cases i with
    | zero => simp
    | succ i => simpa using ih i

lemma echoOf_getD_lt (x : List ℕ) (i : ℕ) (hik : i < echo_step) :
    (echoOf x).getD i 0 = 0 := by
  rcases Nat.lt_or_ge i x.length with hix | hix
  · rw [echoOf, zeroFill, List.getD_eq_getElem?_getD,
      List.getElem?_append_left
        (by simp only [List.length_map, List.length_take, length_roll]; omega),
      ← List.getD_eq_getElem?_getD]
    exact getD_map_zero _ i
  · rw [List.getD_eq_getElem?_getD, List.getElem?_eq_none]
    · rfl
    · rw [length_echoOf]; exact hix

lemma echoOf_getD_ge (x : List ℕ) (i : ℕ) (h3 : echo_step ≤ i) (hix : i < x.length) :
    (echoOf x).getD i 0 = x.getD (i - echo_step) 0 := by
  have hlen : echo_step < x.length := lt_of_le_of_lt h3 hix
  have hmod : echo_step % x.length = echo_step := Nat.mod_eq_of_lt hlen
  have hr : (roll x echo_step).length = x.length := length_roll x echo_step
  have htk : ((roll x echo_step).take echo_step).length = echo_step := by
    simp only [List.length_take, hr]; omega
  rw [echoOf, zeroFill, List.getD_eq_getElem?_getD,
    List.getElem?_append_right (by simp only [List.length_map, htk]; omega)]
  simp only [List.length_map, htk, List.getElem?_drop]
  have hidx : echo_step + (i - echo_step) = i := by omega
  rw [hidx]
  rw [roll, hmod, List.getElem?_append_right (by simp only [List.length_drop]; omega)]
  simp only [List.length_drop]
  have hidx2 : i - (x.length - (x.length - echo_step)) = i - echo_step := by omega
  rw [hidx2, List.getElem?_take_of_lt (by omega), ← List.getD_eq_getElem?_getD]

/-! ### Claim C2: echo correctness of the flat sequences -/

/-- C2 (confirmed): the generated echo sequence has the same length as the input,
its first `echo_step` entries are zero, and every later entry equals the input
entry `echo_step` positions earlier. -/
theorem C2_echo_correctness (x : List ℕ) (h : echo_step ≤ x.length) :
    (echoOf x).length = x.length
    ∧ (∀ i, i < echo_step → (echoOf x).getD i 0 = 0)
    ∧ (∀ i, echo_step ≤ i → i < x.length → (echoOf x).getD i 0 = x.getD (i - echo_step) 0) :=
  ⟨length_echoOf x, fun i hi => echoOf_getD_lt x i hi,
    fun i h3 hix => echoOf_getD_ge x i h3 hix⟩

/-- Witness for C2_echo_correctness on a concrete length-5 sequence. -/
theorem C2_echo_correctness_witness :
    echo_step ≤ ([1, 0, 1, 1, 0] : List ℕ).length
    ∧ ((echoOf [1, 0, 1, 1, 0]).length = ([1, 0, 1, 1, 0] : List ℕ).length
      ∧ (∀ i, i < echo_step → (echoOf [1, 0, 1, 1, 0]).getD i 0 = 0)
      ∧ (∀ i, echo_step ≤ i → i < ([1, 0, 1, 1, 0] : List ℕ).length →
          (echoOf [1, 0, 1, 1, 0]).getD i 0 = ([1, 0, 1, 1, 0] : List ℕ).getD (i - echo_step) 0)) :=
  ⟨by decide, C2_echo_correctness [1, 0, 1, 1, 0] (by decide)⟩

/-! ### Claim C10: the reshaped echo grid wraps rows, it is zero-filled only in row 0 -/

/-- C10 (confirmed): in the reshaped grids, for every batch row `b ≥ 1` and column
`j < echo_step`, the echo-grid entry equals the input-grid entry at the end of the
previous row, while row 0 has its first `echo_step` entries equal to zero. -/
theorem C10_echo_grid_wrap (x : List ℕ) (n b j : ℕ)
    (hx : x.length = batch_size * n) (hn : echo_step ≤ n) (hb1 : 1 ≤ b)
    (hb : b < batch_size) (hj : j < echo_step) :
    gridGet (generateData x).2 b j = gridGet (generateData x).1 (b - 1) (n - echo_step + j)
    ∧ gridGet (generateData x).2 0 j = 0 := by
  obtain ⟨b', rfl⟩ : ∃ b', b = b' + 1 := ⟨b - 1, by omega⟩
  have hn0 : n ≠ 0 := by omega
  have hrow : x.length / batch_size = n := by
    rw [hx, Nat.mul_div_cancel_left _ (by decide : 0 < batch_size)]
  have hyl : (echoOf x).length = x.length := length_echoOf x
  have hrowy : (echoOf x).length / batch_size = n := by rw [hyl, hrow]
  have hg2 : (generateData x).2 = chunksOf n (echoOf x) := by
    simp only [generateData, reshapeRows]
    rw [hrowy]
  have hg1 : (generateData x).1 = chunksOf n x := by
    simp only [generateData, reshapeRows]
    rw [hrow]
  have hble : b' + 1 + 1 ≤ batch_size := hb
  have hmul : (b' + 1 + 1) * n ≤ batch_size * n := Nat.mul_le_mul_right n hble
  have hexp1 : (b' + 1 + 1) * n = b' * n + n + n := by ring
  have hexp2 : (b' + 1) * n = b' * n + n := by ring
  constructor
  · have hj2 : n - echo_step + j < n := by omega
    have hfit2 : b' * n + (n - echo_step + j) < x.length := by
      rw [hx]; omega
    have hfit1 : (b' + 1) * n + j < (echoOf x).length := by
      rw [hyl, hx, hexp2]; omega
    rw [hg2, hg1, gridGet, gridGet, Nat.add_sub_cancel,
      getD_chunksOf n (echoOf x) (b' + 1) j (by omega) hfit1,
      getD_chunksOf n x b' (n - echo_step + j) hj2 hfit2,
      echoOf_getD_ge x ((b' + 1) * n + j) (by rw [hexp2]; omega) (by rw [hyl] at hfit1; exact hfit1)]
    congr 1
    rw [hexp2]
    omega
  · have hfit0 : 0 * n + j < (echoOf x).length := by
      rw [hyl, hx]
      have : n ≤ batch_size * n := Nat.le_mul_of_pos_left n (by decide)
      omega
    rw [hg2, gridGet, getD_chunksOf n (echoOf x) 0 j (by omega) hfit0,
      Nat.zero_mul, Nat.zero_add, echoOf_getD_lt x j hj]

/-- Witness for C10_echo_grid_wrap on a concrete length-15 sequence (n = 3, b = 1, j = 0). -/
theorem C10_echo_grid_wrap_witness :
    ([1, 1, 0, 1, 0, 0, 1, 1, 0, 0, 1, 0, 1, 1, 0] : List ℕ).length = batch_size * 3
    ∧ echo_step ≤ 3 ∧ 1 ≤ 1 ∧ 1 < batch_size ∧ 0 < echo_step
    ∧ (gridGet (generateData [1, 1, 0, 1, 0, 0, 1, 1, 0, 0, 1, 0, 1, 1, 0]).2 1 0 =
        gridGet (generateData [1, 1, 0, 1, 0, 0, 1, 1, 0, 0, 1, 0, 1, 1, 0]).1 (1 - 1)
          (3 - echo_step + 0)
      ∧ gridGet (generateData [1, 1, 0, 1, 0, 0, 1, 1, 0, 0, 1, 0, 1, 1, 0]).2 0 0 = 0) :=
  ⟨by decide, by decide, by decide, by decide, by decide,
    C10_echo_grid_wrap [1, 1, 0, 1, 0, 0, 1, 1, 0, 0, 1, 0, 1, 1, 0] 3 1 0
      (by decide) (by decide) (by decide) (by decide) (by decide)⟩

/-! ### Claim C1: chunk coverage of the column interval -/

/-- C1 (amended): the chunks consumed by the training loop are pairwise disjoint
column windows, and their union covers exactly `[0, num_batches * truncated_backprop_length)`
— which, because 15 does not divide 10000, is a strict subinterval of `[0, row_length)`. -/
theorem C1_chunk_coverage (j k k' : ℕ) (h1 : inChunkCols k j) (h2 : inChunkCols k' j) :
    k = k' ∧ ∀ m, (∃ i, i < num_batches ∧ inChunkCols i m) ↔
      m < num_batches * truncated_backprop_length := by
  constructor
  · simp only [inChunkCols, start_idx, end_idx, truncated_backprop_length] at h1 h2
    omega
  · intro m
    constructor
    · rintro ⟨i, hi, ha, hb⟩
      simp only [inChunkCols, start_idx, end_idx, truncated_backprop_length, num_batches,
        total_series_length, batch_size] at *
      omega
    · intro hm
      refine ⟨m / truncated_backprop_length, ?_, ?_, ?_⟩ <;>
        simp only [inChunkCols, start_idx, end_idx, truncated_backprop_length, num_batches,
          total_series_length, batch_size] at * <;> omega

/-- Witness for C1_chunk_coverage at column 7, chunks 0 and 0. -/
theorem C1_chunk_coverage_witness :
    inChunkCols 0 7 ∧ inChunkCols 0 7 ∧
      (0 = 0 ∧ ∀ m, (∃ i, i < num_batches ∧ inChunkCols i m) ↔
        m < num_batches * truncated_backprop_length) :=
  ⟨by decide, by decide, C1_chunk_coverage 7 0 0 (by decide) (by decide)⟩

/-- C1 counterexample: column 9995 lies in `[0, row_length)` (row_length = 10000) but is
consumed by no chunk, since the loop runs `num_batches = 666` chunks covering only
`[0, 9990)`; moreover the chunk count times the chunk length is not `row_length`. -/
theorem C1_counterexample :
    9995 < total_series_length / batch_size
    ∧ ¬ (∃ k, k < num_batches ∧ inChunkCols k 9995)
    ∧ num_batches * truncated_backprop_length ≠ total_series_length / batch_size := by
  refine ⟨by norm_num [total_series_length, batch_size], ?_, by decide⟩
  rintro ⟨k, hk, ha, hb⟩
  simp only [inChunkCols, start_idx, end_idx, truncated_backprop_length, num_batches,
    total_series_length, batch_size] at *
  omega

/-! ### Claim C6: slicer failure conditions -/

/-- C6 (amended): the reshape in `generateData` fails exactly when `batch_size` does not
divide the flat length; there is no check that the chunk length divides the row length —
the loop's chunk count is floor division, so it covers at most `row_length` columns. -/
theorem C6_slicer_failure (x : List ℕ) :
    (npReshapeRows x batch_size = none ↔ ¬ batch_size ∣ x.length)
    ∧ num_batches * truncated_backprop_length ≤ total_series_length / batch_size := by
  refine ⟨?_, by decide⟩
  unfold npReshapeRows
  by_cases hd : batch_size ∣ x.length
  · rw [if_pos ⟨hd, by decide⟩]
    simp [hd]
  · rw [if_neg]
    · simp [hd]
    · intro hc; exact hd hc.1

/-- C6 counterexample: with the script's own constants the chunk length (15) does not
divide the row length (10000), yet the reshape succeeds on a length-50000 draw and the
loop proceeds on a truncated grid (9990 of 10000 columns) instead of failing. -/
theorem C6_counterexample :
    ¬ (truncated_backprop_length ∣ total_series_length / batch_size)
    ∧ (npReshapeRows (List.replicate total_series_length 0) batch_size).isSome = true
    ∧ num_batches * truncated_backprop_length < total_series_length / batch_size := by
  refine ⟨by decide, ?_, by decide⟩
  rw [npReshapeRows, if_pos]
  · rfl
  · refine ⟨?_, by decide⟩
    simp only [List.length_replicate]
    decide

/-! ### Claim C7: reshape round trip -/

/-- C7 (confirmed): whenever the flat length is divisible by `batch_size`, the row-major
reshape into `[batch_size, row_length]` flattens back to the original sequence, and (for a
nonempty sequence) the grid has exactly `batch_size` rows of length `row_length` each. -/
theorem C7_reshape_roundtrip (x : List ℕ) (h : batch_size ∣ x.length) :
    (reshapeRows x).flatten = x
    ∧ (x ≠ [] → (reshapeRows x).length = batch_size
        ∧ ∀ r ∈ reshapeRows x, r.length = x.length / batch_size) := by
  by_cases hx : x = []
  · subst hx
    refine ⟨?_, fun hne => absurd rfl hne⟩
    rw [reshapeRows, chunksOf_nil]; rfl
  · obtain ⟨c, hc⟩ := h
    have hx0 : 0 < x.length := List.length_pos.mpr hx
    have hc0 : c ≠ 0 := by
      intro e; subst e; rw [hc, Nat.mul_zero] at hx0; exact Nat.lt_irrefl 0 hx0
    have hrow : x.length / batch_size = c := by
      rw [hc, Nat.mul_div_cancel_left _ (by decide : 0 < batch_size)]
    have hdvd : c ∣ x.length := ⟨batch_size, by rw [hc]; ring⟩
    refine ⟨?_, fun _ => ⟨?_, ?_⟩⟩
    · rw [reshapeRows, hrow, flatten_chunksOf c hc0 x]
    · rw [reshapeRows, hrow, length_chunksOf c x hc0 hdvd, hc,
        Nat.mul_comm, Nat.mul_div_cancel_left _ (Nat.pos_of_ne_zero hc0)]
    · rw [reshapeRows, hrow]
      intro r hr
      exact length_mem_chunksOf c x hc0 hdvd r hr

/-- Witness for C7_reshape_roundtrip on a concrete length-5 sequence. -/
theorem C7_reshape_roundtrip_witness :
    batch_size ∣ ([0, 1, 1, 0, 1] : List ℕ).length
    ∧ ((reshapeRows [0, 1, 1, 0, 1]).flatten = [0, 1, 1, 0, 1]
      ∧ (([0, 1, 1, 0, 1] : List ℕ) ≠ [] → (reshapeRows [0, 1, 1, 0, 1]).length = batch_size
          ∧ ∀ r ∈ reshapeRows [0, 1, 1, 0, 1],
              r.length = ([0, 1, 1, 0, 1] : List ℕ).length / batch_size)) :=
  ⟨by decide, C7_reshape_roundtrip [0, 1, 1, 0, 1] (by decide)⟩

/-! ### Claim C5: the loss reducer -/

/-- C5 (confirmed): the scalar loss is the arithmetic mean of the
`chunk_length × batch_size` per-timestep-per-row cross-entropy values, and it is
invariant under any permutation of the batch rows applied identically to the
hidden outputs (hence predictions) and the labels. -/
theorem C5_loss_reduction (W2 : Fin state_size → Fin num_classes → ℝ)
    (b2 : Fin num_classes → ℝ)
    (S : Fin truncated_backprop_length → Fin batch_size → Fin state_size → ℝ)
    (labels : Fin truncated_backprop_length → Fin batch_size → Fin num_classes)
    (σ : Equiv.Perm (Fin batch_size)) :
    total_loss W2 b2 S labels =
      (∑ t, ∑ b, sparseSoftmaxCrossEntropy (logitsOf W2 b2 (S t b)) (labels t b)) /
        ((truncated_backprop_length * batch_size : ℕ) : ℝ)
    ∧ total_loss W2 b2 (fun t b => S t (σ b)) (fun t b => labels t (σ b))
        = total_loss W2 b2 S labels := by
  have key : ∀ (S' : Fin truncated_backprop_length → Fin batch_size → Fin state_size → ℝ)
      (labels' : Fin truncated_backprop_length → Fin batch_size → Fin num_classes),
      total_loss W2 b2 S' labels' =
        (∑ t, ∑ b, sparseSoftmaxCrossEntropy (logitsOf W2 b2 (S' t b)) (labels' t b)) /
          ((truncated_backprop_length * batch_size : ℕ) : ℝ) := by
    intro S' labels'
    rw [total_loss, reduceMean]
    have hnum : (List.ofFn (fun t => List.ofFn (fun b =>
        sparseSoftmaxCrossEntropy (logitsOf W2 b2 (S' t b)) (labels' t b)))).flatten.sum
        = ∑ t, ∑ b, sparseSoftmaxCrossEntropy (logitsOf W2 b2 (S' t b)) (labels' t b) := by
      rw [List.sum_flatten, List.map_ofFn, List.sum_ofFn]
      refine Finset.sum_congr rfl fun t _ => ?_
      simp only [Function.comp_apply, List.sum_ofFn]
    have hlen : (List.ofFn (fun t => List.ofFn (fun b =>
        sparseSoftmaxCrossEntropy (logitsOf W2 b2 (S' t b)) (labels' t b)))).flatten.length
        = truncated_backprop_length * batch_size := by
      rw [List.length_flatten, List.map_ofFn, List.sum_ofFn]
      simp only [Function.comp_apply, List.length_ofFn]
      rw [Finset.sum_const, Finset.card_univ, Fintype.card_fin, smul_eq_mul]
    rw [hnum, hlen]
  refine ⟨key S labels, ?_⟩
  have hs : (∑ t, ∑ b, sparseSoftmaxCrossEntropy (logitsOf W2 b2 (S t (σ b))) (labels t (σ b)))
      = ∑ t, ∑ b, sparseSoftmaxCrossEntropy (logitsOf W2 b2 (S t b)) (labels t b) :=
    Finset.sum_congr rfl fun t _ =>
      Equiv.sum_comp σ (fun b => sparseSoftmaxCrossEntropy (logitsOf W2 b2 (S t b)) (labels t b))
  rw [key S labels, key (fun t b => S t (σ b)) (fun t b => labels t (σ b)), hs]

/-! ### Claim C9: the classifier head consumes only the top layer -/

lemma length_states_series (P : StackParams) (st : StackState) (xs : List ℝ) :
    (states_series P st xs).length = xs.length := by
  rw [states_series]
  induction xs generalizing st with
  | nil => rfl
  | cons x xs ih => simp [runChunk, ih]

lemma stApply_cons (P : StackParams) (st : StackState) (x : ℝ) (xs : List ℝ) :
    stApply P st (x :: xs) = stApply P (multiStep P x st).1 xs := rfl

lemma multiStep_top (P : StackParams) (x : ℝ) (st : StackState) :
    (multiStep P x st).2 = ((multiStep P x st).1 ⟨2, by decide⟩).2 := rfl

lemma runChunk_getD (P : StackParams) (st : StackState) (xs : List ℝ) (t : ℕ)
    (ht : t < xs.length) :
    (runChunk P st xs).1.getD t (fun _ => 0)
      = (multiStep P (xs.getD t 0) (stApply P st (xs.take t))).2 := by
  induction xs generalizing st t with
  | nil => simp at ht
  | cons x xs ih =>
    cases t with
    | zero => simp [runChunk, stApply]
    | succ t =>
      have ht' : t < xs.length := by simpa using ht
      simp only [runChunk, List.getD_cons_succ, List.take_succ_cons, List.getD_cons_succ,
        stApply_cons]
      exact ih (multiStep P x st).1 t ht'

lemma stApply_take_succ (P : StackParams) (st : StackState) (xs : List ℝ) (t : ℕ)
    (ht : t < xs.length) :
    stApply P st (xs.take (t + 1)) = (multiStep P (xs.getD t 0) (stApply P st (xs.take t))).1 := by
  rw [List.take_succ, List.getElem?_eq_getElem ht]
  simp only [Option.toList_some, stApply, List.foldl_append, List.foldl_cons, List.foldl_nil]
  rw [List.getD_eq_getElem _ _ ht]

/-- C9 (confirmed): for every timestep of a chunk, the prediction is the softmax of one
shared affine map `W2, b2` applied to that timestep's stack output, and that stack output
is exactly the hidden value of the top layer (layer 2) of the carried state after the
timestep — no lower layer's hidden output reaches the classifier. -/
theorem C9_classifier_head (P : StackParams) (W2 : Fin state_size → Fin num_classes → ℝ)
    (b2 : Fin num_classes → ℝ) (st : StackState) (xs : List ℝ) (t : ℕ)
    (ht : t < xs.length) :
    (predictions_series W2 b2 (states_series P st xs)).getD t (fun _ => 0)
      = softmax (logitsOf W2 b2 ((states_series P st xs).getD t (fun _ => 0)))
    ∧ (states_series P st xs).getD t (fun _ => 0)
      = (stApply P st (xs.take (t + 1)) ⟨2, by decide⟩).2 := by
  have hlen : t < (states_series P st xs).length := by
    rw [length_states_series]; exact ht
  constructor
  · rw [predictions_series, logits_series, List.map_map,
      List.getD_eq_getElem?_getD, List.getElem?_map, List.getElem?_eq_getElem hlen,
      List.getD_eq_getElem _ _ hlen]
    simp [Function.comp]
  · rw [states_series, runChunk_getD P st xs t ht, multiStep_top,
      ← stApply_take_succ P st xs t ht]

/-- Witness for C9_classifier_head at the all-zero parameters, the all-zero state,
the one-timestep input list `[1]` and timestep 0. -/
theorem C9_classifier_head_witness :
    0 < ([1] : List ℝ).length
    ∧ ((predictions_series (fun _ _ => 0) (fun _ => 0)
          (states_series zeroStackParams zeroStackState [1])).getD 0 (fun _ => 0)
        = softmax (logitsOf (fun _ _ => 0) (fun _ => 0)
            ((states_series zeroStackParams zeroStackState [1]).getD 0 (fun _ => 0)))
      ∧ (states_series zeroStackParams zeroStackState [1]).getD 0 (fun _ => 0)
        = (stApply zeroStackParams zeroStackState (([1] : List ℝ).take (0 + 1))
            ⟨2, by decide⟩).2) :=
  ⟨by simp, C9_classifier_head zeroStackParams (fun _ _ => 0) (fun _ => 0)
    zeroStackState [1] 0 (by simp)⟩

/-! ### Claim C3: state continuity across chunks of one epoch -/

/-- C3 (confirmed): within one epoch the state fed into chunk `k+1` is exactly the
outgoing state the loop received for chunk `k`, which per batch row is the final state
returned by the cell stack's forward pass over chunk `k`; nothing else is ever fed. -/
theorem C3_state_continuity (prm : ℕ → TrainParams) (gx gy : List (List ℕ))
    (ll0 : List ℝ) (k : ℕ) :
    (epochLoop prm gx gy ll0 (k + 1)).2.1
      = (runChunkTF (prm k) (sliceChunk gx k) (sliceChunk gy k)
          ((epochLoop prm gx gy ll0 k).2.1)).outState
    ∧ ∀ b, (runChunkTF (prm k) (sliceChunk gx k) (sliceChunk gy k)
          ((epochLoop prm gx gy ll0 k).2.1)).outState b
        = (runChunk (prm k).stack ((epochLoop prm gx gy ll0 k).2.1 b)
            (rowInputs (sliceChunk gx k) b)).2 :=
  ⟨rfl, fun _ => rfl⟩

/-! ### Claim C4: state reset at every epoch start -/

/-- C4 (confirmed): for every epoch of the full run — whatever the parameter evolution,
the per-epoch random draws, and in particular whatever state the previous epoch ended
with — the state fed into the epoch's first chunk is the all-zero state, every
component (cell value and hidden value, for every layer and batch row) being zero. -/
theorem C4_state_reset (prm : ℕ → ℕ → TrainParams) (draws : ℕ → List ℕ) (e : ℕ) :
    stateFedAt prm draws e 0 = zeroBatchState
    ∧ ∀ (b : Fin batch_size) (l : Fin num_layers),
        (zeroBatchState b l).1 = (fun _ => (0 : ℝ))
        ∧ (zeroBatchState b l).2 = (fun _ => (0 : ℝ)) :=
  ⟨rfl, fun _ _ => ⟨rfl, rfl⟩⟩

/-! ### Claim C8: the visualizer invocation schedule -/

lemma epochLoop_events (prm : ℕ → TrainParams) (gx gy : List (List ℕ))
    (ll0 : List ℝ) (m : ℕ) :
    (epochLoop prm gx gy ll0 m).2.2 =
      ((List.range m).filter (fun k => k % 100 == 0)).map (fun k =>
        PlotEvent.mk k
          ((epochLoop prm gx gy ll0 k).1 ++
            [(runChunkTF (prm k) (sliceChunk gx k) (sliceChunk gy k)
              ((epochLoop prm gx gy ll0 k).2.1)).loss])
          (runChunkTF (prm k) (sliceChunk gx k) (sliceChunk gy k)
            ((epochLoop prm gx gy ll0 k).2.1)).preds
          (sliceChunk gx k) (sliceChunk gy k)) := by
  induction m with
  | zero => rfl
  | succ m ih =>
    rw [List.range_succ, List.filter_append, List.map_append, ← ih]
    simp only [epochLoop]
    congr 1
    by_cases h : m % 100 = 0
    · simp [h]
    · simp [h]

/-- C8 (confirmed): during an epoch, the visualizer calls are exactly one call per chunk
index that is a multiple of 100 (including chunk 0), in order, each passing the loss
history up to and including that chunk, the chunk's per-timestep predictions, and the
chunk's input and echo grids; no other chunk produces a call. -/
theorem C8_visualizer_schedule (prm : ℕ → TrainParams) (gx gy : List (List ℕ))
    (ll0 : List ℝ) :
    (epochLoop prm gx gy ll0 num_batches).2.2 =
      ((List.range num_batches).filter (fun k => k % 100 == 0)).map (fun k =>
        PlotEvent.mk k
          ((epochLoop prm gx gy ll0 k).1 ++
            [(runChunkTF (prm k) (sliceChunk gx k) (sliceChunk gy k)
              ((epochLoop prm gx gy ll0 k).2.1)).loss])
          (runChunkTF (prm k) (sliceChunk gx k) (sliceChunk gy k)
            ((epochLoop prm gx gy ll0 k).2.1)).preds
          (sliceChunk gx k) (sliceChunk gy k)) :=
  epochLoop_events prm gx gy ll0 num_batches

end RnnTF5
